import Mathlib

/-!
Verification development for the assessment-recommendation proxy.

The repository has two proxy implementations sharing the same core logic:
  * `api/proxy.js` — serverless handler (method check, key check, rolling
    in-memory per-IP limiter, upstream forward, response normalization);
  * the Express server (`src/unnamed/part_002`) — `checkRateLimit` with a
    Redis-backed variant and an in-memory fallback variant, plus the same
    response-normalization code inline in the `/proxy` route.

This file gives a shallow embedding of that code: JSON values, a model of
`JSON.parse` / `String(...)`, the normalizer, both rate limiters, and both
request handlers, followed by theorems settling the frozen claims.
-/

namespace AssessProxy

/-- JSON values as produced by `JSON.parse`.  Numbers are modelled as exact
rationals (the idealization of JS numbers adequate for the decimal literals
this code ever sees). -/
inductive Json where
  | null : Json
  | bool : Bool → Json
  | num : Rat → Json
  | str : String → Json
  | arr : List Json → Json
  | obj : List (String × Json) → Json

/-- The `\x7b` character (left curly brace). -/
def lbraceChar : Char := Char.ofNat 123

/-- The `\x7d` character (right curly brace). -/
def rbraceChar : Char := Char.ofNat 125

/-- Skip JSON whitespace. -/
def skipWs : List Char → List Char
  | [] => []
  | c :: cs => if c = ' ' ∨ c = '\t' ∨ c = '\n' ∨ c = '\r' then skipWs cs else c :: cs

/-- Value of a hexadecimal digit. -/
def hexVal (c : Char) : Option Nat :=
  if '0' ≤ c ∧ c ≤ '9' then some (c.toNat - 48)
  else if 'a' ≤ c ∧ c ≤ 'f' then some (c.toNat - 87)
  else if 'A' ≤ c ∧ c ≤ 'F' then some (c.toNat - 55)
  else none

/-- Parse the body of a JSON string literal (after the opening quote),
handling the standard escapes.  Returns the string and the rest of the
input after the closing quote. -/
def parseStrChars (acc : List Char) : List Char → Option (String × List Char)
  | [] => none
  | c :: cs =>
    if c = '"' then some (String.mk acc.reverse, cs)
    else if c = '\\' then
      match cs with
      | [] => none
      | e :: cs2 =>
        if e = '"' then parseStrChars ('"' :: acc) cs2
        else if e = '\\' then parseStrChars ('\\' :: acc) cs2
        else if e = '/' then parseStrChars ('/' :: acc) cs2
        else if e = 'b' then parseStrChars (Char.ofNat 8 :: acc) cs2
        else if e = 'f' then parseStrChars (Char.ofNat 12 :: acc) cs2
        else if e = 'n' then parseStrChars ('\n' :: acc) cs2
        else if e = 'r' then parseStrChars ('\r' :: acc) cs2
        else if e = 't' then parseStrChars ('\t' :: acc) cs2
        else if e = 'u' then
          match cs2 with
          | h1 :: h2 :: h3 :: h4 :: cs3 =>
            match hexVal h1, hexVal h2, hexVal h3, hexVal h4 with
            | some a, some b, some c3, some d =>
              parseStrChars (Char.ofNat (((a * 16 + b) * 16 + c3) * 16 + d) :: acc) cs3
            | _, _, _, _ => none
          | _ => none
        else none
    else parseStrChars (c :: acc) cs

/-- Decimal digits to a natural number. -/
def digitsToNat (l : List Char) : Nat :=
  l.foldl (fun a c => a * 10 + (c.toNat - 48)) 0

/-- Parse a JSON number token (`-?(0|[1-9]\d*)(\.\d+)?([eE][+-]?\d+)?`). -/
def parseNum (cs : List Char) : Option (Json × List Char) :=
  let (neg, cs1) := match cs with | '-' :: r => (true, r) | _ => (false, cs)
  let intDs := cs1.takeWhile Char.isDigit
  let cs2 := cs1.drop intDs.length
  if intDs = [] then none
  else if 1 < intDs.length ∧ intDs.headD '0' = '0' then none
  else
    let (fracDs, cs3) :=
      match cs2 with
      | '.' :: r => (r.takeWhile Char.isDigit, r.drop ((r.takeWhile Char.isDigit).length))
      | _ => ([], cs2)
    let hasDot := match cs2 with | '.' :: _ => true | _ => false
    if hasDot ∧ fracDs = [] then none
    else
      -- the token's exact value, built from plain Nat/Int arithmetic:
      -- (int·10^k + frac) / 10^k, scaled by the exponent, negated by the sign
      let k := fracDs.length
      let mantissa : Nat := digitsToNat intDs * 10 ^ k + digitsToNat fracDs
      let mkVal (eneg : Bool) (e : Nat) : Rat :=
        let n : Int := if eneg then (mantissa : Int) else (mantissa * 10 ^ e : Nat)
        let d : Nat := if eneg then 10 ^ k * 10 ^ e else 10 ^ k
        if neg then mkRat (-n) d else mkRat n d
      match cs3 with
      | 'e' :: r =>
        let (eneg, r1) := match r with
          | '-' :: r2 => (true, r2)
          | '+' :: r2 => (false, r2)
          | _ => (false, r)
        let expDs := r1.takeWhile Char.isDigit
        if expDs = [] then none
        else some (.num (mkVal eneg (digitsToNat expDs)), r1.drop expDs.length)
      | 'E' :: r =>
        let (eneg, r1) := match r with
          | '-' :: r2 => (true, r2)
          | '+' :: r2 => (false, r2)
          | _ => (false, r)
        let expDs := r1.takeWhile Char.isDigit
        if expDs = [] then none
        else some (.num (mkVal eneg (digitsToNat expDs)), r1.drop expDs.length)
      | _ => some (.num (mkVal false 0), cs3)

/-- Replace the value of a key in an association list (keeping its position),
or append it; models JS object construction where a duplicate key keeps its
first position but takes its last value. -/
def setField : List (String × Json) → String → Json → List (String × Json)
  | [], k, v => [(k, v)]
  | (k0, v0) :: rest, k, v =>
    if k0 = k then (k0, v) :: rest else (k0, v0) :: setField rest k v

/-- Fold a parsed field list into a duplicate-free object. -/
def dedupFields (l : List (String × Json)) : List (String × Json) :=
  l.foldl (fun fs kv => setField fs kv.1 kv.2) []

mutual

/-- Fuel-indexed recursive-descent parser for a JSON value; the model of
`JSON.parse` used by both handlers. -/
def parseVal : Nat → List Char → Option (Json × List Char)
  | 0, _ => none
  | fuel + 1, cs =>
    match skipWs cs with
    | [] => none
    | c :: rest =>
      if c = 'n' then
        match rest with
        | 'u' :: 'l' :: 'l' :: r => some (.null, r)
        | _ => none
      else if c = 't' then
        match rest with
        | 'r' :: 'u' :: 'e' :: r => some (.bool true, r)
        | _ => none
      else if c = 'f' then
        match rest with
        | 'a' :: 'l' :: 's' :: 'e' :: r => some (.bool false, r)
        | _ => none
      else if c = '"' then
        match parseStrChars [] rest with
        | some (s, r) => some (.str s, r)
        | none => none
      else if c = '[' then
        match skipWs rest with
        | ']' :: r => some (.arr [], r)
        | r2 => parseElems fuel r2 []
      else if c = lbraceChar then
        match skipWs rest with
        | [] => none
        | d :: r =>
          if d = rbraceChar then some (.obj [], r)
          else parseFields fuel (d :: r) []
      else parseNum (c :: rest)

/-- Parse the elements of a JSON array (after the opening bracket). -/
def parseElems : Nat → List Char → List Json → Option (Json × List Char)
  | 0, _, _ => none
  | fuel + 1, cs, acc =>
    match parseVal fuel cs with
    | none => none
    | some (v, rest) =>
      match skipWs rest with
      | ',' :: r => parseElems fuel r (v :: acc)
      | ']' :: r => some (.arr (v :: acc).reverse, r)
      | _ => none

/-- Parse the fields of a JSON object (after the opening brace). -/
def parseFields : Nat → List Char → List (String × Json) → Option (Json × List Char)
  | 0, _, _ => none
  | fuel + 1, cs, acc =>
    match skipWs cs with
    | [] => none
    | c :: rest =>
      if c = '"' then
        match parseStrChars [] rest with
        | some (k, r1) =>
          match skipWs r1 with
          | ':' :: r2 =>
            match parseVal fuel r2 with
            | some (v, r3) =>
              match skipWs r3 with
              | ',' :: r4 => parseFields fuel r4 ((k, v) :: acc)
              | d :: r4 =>
                if d = rbraceChar then some (.obj (dedupFields ((k, v) :: acc).reverse), r4)
                else none
              | [] => none
            | none => none
          | _ => none
        | none => none
      else none

end

/-- Model of `JSON.parse`: parse the whole string as one JSON value,
returning `none` where `JSON.parse` would throw a `SyntaxError`. -/
def parseJson (s : String) : Option Json :=
  match parseVal (2 * s.length + 2) s.data with
  | some (v, rest) => if skipWs rest = [] then some v else none
  | none => none

/-- Zero-pad a decimal string on the left to width `k`. -/
def padZeros (s : String) (k : Nat) : String :=
  String.mk (List.replicate (k - s.length) '0') ++ s

/-- Drop trailing zero digits of a fractional part. -/
def stripZeros (s : String) : String :=
  String.mk (s.data.reverse.dropWhile (· = '0')).reverse

/-- Model of JS `String()` on a number: exact decimal expansion (the
rationals reached by this code always have a power-of-ten denominator). -/
def numToString (q : Rat) : String :=
  if q.den = 1 then
    (if q.num < 0 then "-" ++ toString q.num.natAbs else toString q.num.natAbs)
  else
    match (List.range 40).find? (fun k => q.den ∣ 10 ^ k) with
    | some k =>
      let scaled := q.num.natAbs * (10 ^ k / q.den)
      let ip := scaled / 10 ^ k
      let fp := scaled % 10 ^ k
      (if q.num < 0 then "-" else "") ++ toString ip ++ "." ++
        stripZeros (padZeros (toString fp) k)
    | none => "NaN"

mutual

/-- Model of JS string coercion `String(v)` of a JSON value, as applied by
`JSON.parse` to a non-string argument. -/
def jsToStr : Json → String
  | .null => "null"
  | .bool b => if b then "true" else "false"
  | .num q => numToString q
  | .str s => s
  | .arr xs => String.intercalate "," (jsToStrList xs)
  | .obj _ => "[object Object]"

/-- `Array.prototype.join`: elements coerced with `String`, except `null`
which joins as the empty string. -/
def jsToStrList : List Json → List String
  | [] => []
  | x :: rest => (match x with | .null => "" | y => jsToStr y) :: jsToStrList rest

end

/-- First binding of a key in an object field list (parser-produced objects
are duplicate-free, so this is JS property lookup). -/
def lookupField : List (String × Json) → String → Option Json
  | [], _ => none
  | (k0, v0) :: rest, k => if k0 = k then some v0 else lookupField rest k

/-- JS property access `v.p` on a non-null value: a field of an object,
`undefined` (here `none`) on every other value. -/
def jsProp (v : Json) (p : String) : Option Json :=
  match v with
  | .obj fs => lookupField fs p
  | _ => none

/-- JS index access `v[0]`: the head of an array, the property `"0"` of an
object, the first character of a string, `undefined` otherwise. -/
def jsIndex0 (v : Json) : Option Json :=
  match v with
  | .arr xs => xs.head?
  | .obj fs => lookupField fs "0"
  | .str s => s.data.head?.map (fun c => Json.str (String.mk [c]))
  | _ => none

/-- JS truthiness of a JSON value. -/
def truthy : Json → Bool
  | .null => false
  | .bool b => b
  | .num q => q ≠ 0
  | .str s => s ≠ ""
  | .arr _ => true
  | .obj _ => true

/-- The `candidates` property of the upstream JSON (`json.candidates`). -/
def candidatesOf (j : Json) : Option Json := jsProp j "candidates"

/-- The text chain `candidate.content?.parts?.[0]?.text` of a candidate. -/
def candidateText (cand : Json) : Option Json :=
  (jsProp cand "content").bind fun c =>
    (jsProp c "parts").bind fun p =>
      (jsIndex0 p).bind fun e => jsProp e "text"

/-- The normalization logic shared verbatim by both handlers
(`api/proxy.js` lines 66-80 and the Express route lines 170-183): extract
`candidates[0].content.parts[0].text`, try to parse it as JSON, and return
`\x7b recommendations \x7d`, `\x7b candidates \x7d`, or the input itself. -/
def normalize (j : Json) : Json :=
  match candidatesOf j with
  | none => j
  | some cs =>
    match jsIndex0 cs with
    | none => j
    | some cand =>
      if truthy cand then
        match candidateText cand with
        | none => j
        | some t =>
          if truthy t then
            match parseJson (jsToStr t) with
            | some v => Json.obj [("recommendations", v)]
            | none => Json.obj [("candidates", cs)]
          else j
      else j

/-- The normalization step as executed by the handlers: on the JSON value
`null`, the very first access `json.candidates` raises a `TypeError`
(caught by the surrounding try/catch and turned into a 500); on every other
value it cannot throw and produces `normalize`. -/
def normalizeE (j : Json) : Except Unit Json :=
  match j with
  | .null => .error ()
  | _ => .ok (normalize j)

/-! ## Clock and calendar

`checkRateLimit` keys its day counter by `new Date().toISOString().slice(0,10)`,
the UTC calendar date.  We model wall-clock time as milliseconds since the
Unix epoch and derive the date with the standard civil-from-days algorithm. -/

/-- Days since 1970-01-01 to a `(year, month, day)` civil date (proleptic
Gregorian, as used by `Date.prototype.toISOString`). -/
def civilFromDays (z0 : Nat) : Nat × Nat × Nat :=
  let z := z0 + 719468
  let era := z / 146097
  let doe := z % 146097
  let yoe := (doe - doe / 1460 + doe / 36524 - doe / 146096) / 365
  let y := yoe + era * 400
  let doy := doe - (365 * yoe + yoe / 4 - yoe / 100)
  let mp := (5 * doy + 2) / 153
  let d := doy - (153 * mp + 2) / 5 + 1
  let mo := if mp < 10 then mp + 3 else mp - 9
  (if mo ≤ 2 then y + 1 else y, mo, d)

/-- `n` as decimal, zero-padded to width 2. -/
def pad2 (n : Nat) : String := if n < 10 then "0" ++ toString n else toString n

/-- Model of `new Date(ms).toISOString().slice(0,10)`: the UTC calendar
date `YYYY-MM-DD`. -/
def utcDateString (ms : Nat) : String :=
  match civilFromDays (ms / 86400000) with
  | (y, mo, d) => toString y ++ "-" ++ pad2 mo ++ "-" ++ pad2 d

/-! ## Quota Guard (`checkRateLimit`, Express server)

The source keys its counters by the strings `rl:CLIENT:MINUTE` and
`daily:CLIENT:DATE`.  Those renderings are injective — the prefixes differ
and the window segment after the final colon contains no colon — so the
keys are modelled by a structured type, which keeps distinctness of keys
syntactic. -/

/-- A counting-store key: `rl:client:minute` or `daily:client:date`. -/
inductive RKey where
  | minuteK : String → Nat → RKey
  | dayK : String → String → RKey
deriving DecidableEq

/-- A Redis cell: the counter value and its expiry time (seconds since
epoch), if `expire` was called on the key. -/
structure RCell where
  count : Nat
  expireAt : Option Nat
deriving DecidableEq

/-- The shared counting store: an association list of live-or-expired keys. -/
abbrev RedisState := List (RKey × RCell)

/-- First cell stored under a key. -/
def redisFind : RedisState → RKey → Option RCell
  | [], _ => none
  | (k0, c0) :: rest, k => if k0 = k then some c0 else redisFind rest k

/-- Replace the cell under a key (or append a new binding). -/
def redisSet : RedisState → RKey → RCell → RedisState
  | [], k, c => [(k, c)]
  | (k0, c0) :: rest, k, c =>
    if k0 = k then (k0, c) :: rest else (k0, c0) :: redisSet rest k c

/-- Redis `INCR` at time `nowSec`: an absent or expired key is created with
value 1 and no TTL; a live key is incremented, keeping its TTL. -/
def redisIncr (r : RedisState) (k : RKey) (nowSec : Nat) : Nat × RedisState :=
  let live : Option RCell :=
    match redisFind r k with
    | some c =>
      match c.expireAt with
      | some e => if e ≤ nowSec then none else some c
      | none => some c
    | none => none
  match live with
  | some c => (c.count + 1, redisSet r k ⟨c.count + 1, c.expireAt⟩)
  | none => (1, redisSet r k ⟨1, none⟩)

/-- Redis `EXPIRE key secs` at time `nowSec`. -/
def redisExpire (r : RedisState) (k : RKey) (nowSec secs : Nat) : RedisState :=
  match redisFind r k with
  | some c => redisSet r k ⟨c.count, some (nowSec + secs)⟩
  | none => r

/-- An entry of the in-memory fallback map `ipMap`: the minute window and
its count, and the stored day string with its count.  (The source stores
`day` but never reads it back.) -/
structure MemEntry where
  minute : Nat
  count : Nat
  day : String
  dayCount : Nat
deriving DecidableEq

/-- The in-memory fallback map, keyed by client id. -/
abbrev MemState := List (String × MemEntry)

/-- `ipMap.get(clientId)`. -/
def memFind : MemState → String → Option MemEntry
  | [], _ => none
  | (k0, e0) :: rest, k => if k0 = k then some e0 else memFind rest k

/-- `ipMap.set(clientId, entry)`. -/
def memSet : MemState → String → MemEntry → MemState
  | [], k, e => [(k, e)]
  | (k0, e0) :: rest, k, e =>
    if k0 = k then (k0, e) :: rest else (k0, e0) :: memSet rest k e

/-- The outcome of `checkRateLimit`: `\x7b ok: true \x7d` or
`\x7b ok: false, reason \x7d`. -/
inductive Decision where
  | ok : Decision
  | minuteLimit : Decision
  | dailyLimit : Decision
deriving DecidableEq

/-- The `reason` string carried by a rejection. -/
def reasonString : Decision → String
  | .ok => ""
  | .minuteLimit => "minute_limit"
  | .dailyLimit => "daily_limit"

/-- The rate-limiter state of the Express server: the Redis connection's
key space when `REDIS_URL` is configured, and the in-memory `ipMap`. -/
structure Store where
  redis : Option RedisState
  ipMap : MemState

/-- `checkRateLimit(clientId)` of the Express server, with the wall clock
`nowMs` (`Date.now()`) made explicit.  `maxPerMin` and `maxDaily` are the
configured ceilings (`MAX_REQUESTS_PER_MIN`, `MAX_DAILY_REQUESTS`). -/
def checkRateLimit (maxPerMin maxDaily : Nat) (clientId : String) (nowMs : Nat)
    (s : Store) : Decision × Store :=
  let now := nowMs / 1000
  let minuteKey : RKey := .minuteK clientId (now / 60)
  let dayKey : RKey := .dayK clientId (utcDateString nowMs)
  match s.redis with
  | some r =>
    let i1 := redisIncr r minuteKey now
    let r2 := if i1.1 = 1 then redisExpire i1.2 minuteKey now 65 else i1.2
    if maxPerMin < i1.1 then (.minuteLimit, { s with redis := some r2 })
    else
      let i2 := redisIncr r2 dayKey now
      let r4 := if i2.1 = 1 then redisExpire i2.2 dayKey now (86400 + 60) else i2.2
      if maxDaily < i2.1 then (.dailyLimit, { s with redis := some r4 })
      else (.ok, { s with redis := some r4 })
  | none =>
    let nowMin := nowMs / 60000
    let entry := (memFind s.ipMap clientId).getD ⟨nowMin, 0, utcDateString nowMs, 0⟩
    let entry1 := if entry.minute ≠ nowMin then { entry with minute := nowMin, count := 0 }
                  else entry
    let entry2 := { entry1 with count := entry1.count + 1, dayCount := entry1.dayCount + 1 }
    let m2 := memSet s.ipMap clientId entry2
    if maxPerMin < entry2.count then (.minuteLimit, { s with ipMap := m2 })
    else if maxDaily < entry2.dayCount then (.dailyLimit, { s with ipMap := m2 })
    else (.ok, { s with ipMap := m2 })

/-- Run `checkRateLimit` over a sequence of call timestamps, collecting the
decisions. -/
def runLimit (maxPerMin maxDaily : Nat) (clientId : String) :
    List Nat → Store → List Decision × Store
  | [], s => ([], s)
  | t :: ts, s =>
    let step := checkRateLimit maxPerMin maxDaily clientId t s
    let rest := runLimit maxPerMin maxDaily clientId ts step.2
    (step.1 :: rest.1, rest.2)

/-- The Express variant backed by the shared store, started empty. -/
def redisStore0 : Store := ⟨some [], []⟩

/-- The Express in-memory fallback variant, started empty. -/
def memStore0 : Store := ⟨none, []⟩

/-! ## Client identity and the HTTP handlers -/

/-- JS `a || b` for a possibly-missing string, where the empty string is
falsy. -/
def orFalsy (a : Option String) (d : String) : String :=
  match a with
  | some s => if s = "" then d else s
  | none => d

/-- The characters before the first comma: `s.split(',')[0]`. -/
def takeUntilComma : List Char → List Char
  | [] => []
  | c :: cs => if c = ',' then [] else c :: takeUntilComma cs

/-- `String.prototype.trim`: strip leading and trailing whitespace. -/
def trimChars (l : List Char) : List Char :=
  ((l.dropWhile Char.isWhitespace).reverse.dropWhile Char.isWhitespace).reverse

/-- `getClientIp`: first entry of `x-forwarded-for`, else the socket
address, else `"unknown"`; split at the first comma and trimmed.  The same
expression appears inline in the serverless handler. -/
def getClientIp (xff remoteAddr : Option String) : String :=
  String.mk (trimChars (takeUntilComma (orFalsy xff (orFalsy remoteAddr "unknown")).data))

/-- JS truthiness of the configured API key (`!apiKey`): absent or empty is
falsy. -/
def keyPresent : Option String → Bool
  | some k => k ≠ ""
  | none => false

/-- The upstream `fetch` outcome, supplied as an oracle: a network fault
(the `fetch` promise rejects), or a response with `r.ok`, `r.status` and
its text body. -/
inductive UpstreamResult where
  | netFail : UpstreamResult
  | resp : Bool → Nat → String → UpstreamResult

/-- A response body: `res.send(text)` or `res.json(value)`. -/
inductive RBody where
  | text : String → RBody
  | json : Json → RBody

/-- The observable outcome of a handler invocation: HTTP status, the
`Allow` header if set, the body, the rate-limiter state left behind, and
whether the upstream API was called. -/
structure HResult (σ : Type) where
  status : Nat
  allowHeader : Option String
  body : RBody
  state : σ
  calledUpstream : Bool

/-- The post-limiter tail shared by both handlers: forward to upstream,
pass a non-2xx through verbatim, `JSON.parse` the 2xx body (a parse throw
is caught by the handler's catch), normalize, and answer 200; any throw
(network fault, body parse, `null` normalization input) yields a 500 with
the handler's internal-error message. -/
def upstreamResponse (internalErrMsg : String) : UpstreamResult → Nat × RBody
  | .netFail => (500, .json (Json.obj [("error", Json.str internalErrMsg)]))
  | .resp ok status text =>
    if ¬ok then (status, .text text)
    else
      match parseJson text with
      | none => (500, .json (Json.obj [("error", Json.str internalErrMsg)]))
      | some j =>
        match normalizeE j with
        | .error _ => (500, .json (Json.obj [("error", Json.str internalErrMsg)]))
        | .ok r => (200, .json r)

/-- A request as seen by the serverless handler. -/
structure SReq where
  method : String
  xForwardedFor : Option String
  remoteAddr : Option String

/-- An entry of the serverless in-memory limiter `ipCounters`. -/
structure SEntry where
  count : Nat
  start : Nat
deriving DecidableEq

/-- The serverless per-IP counter map. -/
abbrev SState := List (String × SEntry)

/-- `ipCounters.get(ip)`. -/
def sFind : SState → String → Option SEntry
  | [], _ => none
  | (k0, e0) :: rest, k => if k0 = k then some e0 else sFind rest k

/-- `ipCounters.set(ip, entry)`. -/
def sSet : SState → String → SEntry → SState
  | [], k, e => [(k, e)]
  | (k0, e0) :: rest, k, e =>
    if k0 = k then (k0, e) :: rest else (k0, e0) :: sSet rest k e

/-- The serverless handler (`api/proxy.js`): method check, key check,
rolling in-memory per-IP limiter (window 60000 ms, ceiling 60), then the
shared upstream/normalization tail.  Payload forwarding is not modelled:
no claim observes the forwarded body. -/
def slessHandler (apiKey : Option String) (req : SReq) (nowMs : Nat) (st : SState)
    (upstream : UpstreamResult) : HResult SState :=
  if req.method ≠ "POST" then
    ⟨405, some "POST", .text "Method Not Allowed", st, false⟩
  else if ¬keyPresent apiKey then
    ⟨403, none,
      .json (Json.obj [("error",
        Json.str "GEMINI_API_KEY not configured on server. Please set the environment variable.")]),
      st, false⟩
  else
    let ip := getClientIp req.xForwardedFor req.remoteAddr
    let entry := (sFind st ip).getD ⟨0, nowMs⟩
    let entry1 := if 60000 < nowMs - entry.start then (⟨0, nowMs⟩ : SEntry) else entry
    let entry2 : SEntry := ⟨entry1.count + 1, entry1.start⟩
    let st2 := sSet st ip entry2
    if 60 < entry2.count then
      ⟨429, none,
        .json (Json.obj [("error", Json.str "Rate limit exceeded. Try again later.")]),
        st2, false⟩
    else
      let ub := upstreamResponse "Proxy encountered an internal error." upstream
      ⟨ub.1, none, ub.2, st2, true⟩

/-- The Express server's configuration, read from the environment at
startup. -/
structure ECfg where
  apiKey : Option String
  demoProxy : Bool
  maxPerMin : Nat
  maxDaily : Nat

/-- A request as seen by the Express `/proxy` route (after the auth
middleware, which is outside the route and outside the claims). -/
structure EReq where
  xForwardedFor : Option String
  remoteAddr : Option String

/-- The canned demo recommendations returned when `DEMO_PROXY=1` and no
API key is configured. -/
def demoRecommendations : Json := Json.arr [
  Json.obj [
    ("name", Json.str "Java (New)"),
    ("url", Json.str "https://www.shl.com/solutions/products/product-catalog/view/java-new/"),
    ("adaptive_support", Json.str "No"),
    ("description", Json.str "Multi-choice test that measures the knowledge of Java programming, including core concepts, data structures, and OOP principles."),
    ("duration", Json.num 20),
    ("remote_support", Json.str "Yes"),
    ("test_type", Json.arr [Json.str "Knowledge & Skills"])],
  Json.obj [
    ("name", Json.str "Teamwork & Collaboration (SJT)"),
    ("url", Json.str "https://www.shl.com/solutions/products/product-catalog/view/teamwork-collaboration-sjt/"),
    ("adaptive_support", Json.str "No"),
    ("description", Json.str "A Situational Judgement Test (SJT) that assesses how an individual collaborates in a team environment."),
    ("duration", Json.num 20),
    ("remote_support", Json.str "Yes"),
    ("test_type", Json.arr [Json.str "Biodata & Situational Judgement", Json.str "Personality & Behavior"])],
  Json.obj [
    ("name", Json.str "Cognitive Ability (General)"),
    ("url", Json.str "https://www.shl.com/solutions/products/product-catalog/view/cognitive-ability-general/"),
    ("adaptive_support", Json.str "Yes"),
    ("description", Json.str "Measures verbal, numerical, and abstract reasoning. Good for analyst roles."),
    ("duration", Json.num 30),
    ("remote_support", Json.str "Yes"),
    ("test_type", Json.arr [Json.str "Ability & Aptitude"])],
  Json.obj [
    ("name", Json.str "Numerical Reasoning"),
    ("url", Json.str "https://www.shl.com/solutions/products/product-catalog/view/numerical-reasoning/"),
    ("adaptive_support", Json.str "Yes"),
    ("description", Json.str "Assesses the ability to work with and interpret numerical data, such as graphs, charts, and tables."),
    ("duration", Json.num 25),
    ("remote_support", Json.str "Yes"),
    ("test_type", Json.arr [Json.str "Ability & Aptitude"])],
  Json.obj [
    ("name", Json.str "Technology Professional 8.8 Job Focused Assessment"),
    ("url", Json.str "https://www.shl.com/solutions/products/product-catalog/view/technology-professional-8-8-job-focused-assessment/"),
    ("adaptive_support", Json.str "No"),
    ("description", Json.str "The Technology Job Focused Assessment assesses key behavioral attributes required for success in fast-paced roles."),
    ("duration", Json.num 16),
    ("remote_support", Json.str "Yes"),
    ("test_type", Json.arr [Json.str "Competencies", Json.str "Personality & Behavior"])]]

/-- The Express `app.post` route for `/proxy`: demo/key check, Quota Guard
(`checkRateLimit`), then the shared upstream/normalization tail. -/
def expressHandler (cfg : ECfg) (req : EReq) (nowMs : Nat) (st : Store)
    (upstream : UpstreamResult) : HResult Store :=
  if ¬keyPresent cfg.apiKey then
    if cfg.demoProxy then
      ⟨200, none, .json (Json.obj [("recommendations", demoRecommendations)]), st, false⟩
    else
      ⟨500, none, .json (Json.obj [("error", Json.str "GEMINI_API_KEY not configured on server")]),
        st, false⟩
  else
    let client := getClientIp req.xForwardedFor req.remoteAddr
    let rs := checkRateLimit cfg.maxPerMin cfg.maxDaily client nowMs st
    match rs.1 with
    | .ok =>
      let ub := upstreamResponse "Proxy internal error" upstream
      ⟨ub.1, none, ub.2, rs.2, true⟩
    | d =>
      ⟨429, none,
        .json (Json.obj [("error", Json.str "Rate limit exceeded"),
                         ("reason", Json.str (reasonString d))]),
        rs.2, false⟩

/-! ## Derived observations and reference values used by the theorems -/

/-- The decision `checkRateLimit` reaches on the `k`-th call of a
same-minute burst against a fresh client: minute-limited past `maxPerMin`,
day-limited past `maxDaily`, admitted otherwise. -/
def specD (maxPerMin maxDaily k : Nat) : Decision :=
  if maxPerMin < k then .minuteLimit
  else if maxDaily < k then .dailyLimit
  else .ok

/-- The decisions of calls `k+1, …, k+n` of a same-minute burst. -/
def specList (maxPerMin maxDaily : Nat) : Nat → Nat → List Decision
  | _, 0 => []
  | k, n + 1 => specD maxPerMin maxDaily (k + 1) :: specList maxPerMin maxDaily (k + 1) n

/-- Shape of the shared store after `k` same-minute calls (epoch minute
`m`) from a fresh client `c`: the minute key holds `k`; once the minute
ceiling admits at least one call, the day key holds the number of
minute-admitted calls, `min k maxPerMin`.  Expiry times never fall inside
the windows they guard. -/
def RAfter (maxPerMin : Nat) (c : String) (m k : Nat) (r : RedisState) : Prop :=
  (k = 0 ∧ r = []) ∨
  (1 ≤ k ∧ ∃ e1, 60 * m + 60 ≤ e1 ∧
    ((maxPerMin = 0 ∧ r = [(.minuteK c m, ⟨k, some e1⟩)]) ∨
     (1 ≤ maxPerMin ∧ ∃ e2, 60 * m + 86460 ≤ e2 ∧
       r = [(.minuteK c m, ⟨k, some e1⟩),
            (.dayK c (utcDateString (60000 * m)), ⟨min k maxPerMin, some e2⟩)])))

/-- Shape of the in-memory map after `k` same-minute calls (epoch minute
`m`) from a fresh client `c`. -/
def MAfter (c : String) (m k : Nat) (ms : MemState) : Prop :=
  (k = 0 ∧ ms = []) ∨
  (1 ≤ k ∧ ms = [(c, ⟨m, k, utcDateString (60000 * m), k⟩)])

/-- The stored minute counter of the shared-store variant for client `c`
and epoch minute `m`. -/
def redisMinuteCount (s : Store) (c : String) (m : Nat) : Nat :=
  match s.redis with
  | some r =>
    match redisFind r (.minuteK c m) with
    | some cell => cell.count
    | none => 0
  | none => 0

/-- The stored minute counter of the in-memory variant for client `c`. -/
def memMinuteCount (s : Store) (c : String) : Nat :=
  match memFind s.ipMap c with
  | some e => e.count
  | none => 0

/-- The top-level keys of a JSON object (a coarse observation separating
distinct objects). -/
def topKeys : Json → List String
  | .obj fs => fs.map Prod.fst
  | _ => []

/-- A candidate-list entry with the given text at
`content.parts[0].text`. -/
def mkCandidate (t : String) : Json :=
  Json.obj [("content", Json.obj [("parts", Json.arr [Json.obj [("text", Json.str t)]])])]

/-- The spec's round-trip example: a candidate whose text is the JSON
array `[\x7b"name":"X"\x7d]`. -/
def roundTripInput : Json :=
  Json.obj [("candidates", Json.arr [mkCandidate "[\x7b\"name\":\"X\"\x7d]"])]

/-- The spec's fallback example: a candidate whose text is not JSON. -/
def fallbackInput : Json :=
  Json.obj [("candidates", Json.arr [mkCandidate "not json"])]

/-- A well-formed JSON object whose first candidate's `text` exists but is
the empty string (falsy in JS), with a second key to make pass-through
observable. -/
def emptyTextInput : Json :=
  Json.obj [("candidates", Json.arr [mkCandidate ""]), ("extra", Json.num 1)]

/-- A well-formed JSON object with a `candidates` value that is an object,
not an array, yet exposes a candidate under the property `"0"` — so
`candidates?.[0]` finds it. -/
def nonArrayCandidatesInput : Json :=
  Json.obj [("candidates", Json.obj [("0", mkCandidate "1")])]

end AssessProxy

namespace AssessProxy

theorem normalizeE_of_ne_null (j : Json) (h : j ≠ .null) : normalizeE j = .ok (normalize j) := by
  cases j
  · exact absurd rfl h
  all_goals rfl

theorem truthy_of_candidateText (cand x : Json) (h : candidateText cand = some x) :
    truthy cand = true := by
  cases cand <;> simp [candidateText, jsProp, truthy] at h ⊢

/-- C5: for every upstream JSON object whose candidates array's first
candidate carries a text field at `candidates[0].content.parts[0].text`,
if that text parses as a JSON value `v`, the normalizer returns
`\x7b recommendations: v \x7d`, without validating the shape of `v`. -/
theorem c5_theorem (j cand v : Json) (l : List Json) (t : String)
    (hc : candidatesOf j = some (Json.arr l))
    (hh : l.head? = some cand)
    (ht : candidateText cand = some (.str t))
    (hp : parseJson t = some v) :
    normalizeE j = .ok (Json.obj [("recommendations", v)]) := by
  have hnn : j ≠ .null := by intro h; rw [h] at hc; simp [candidatesOf, jsProp] at hc
  have htr : truthy cand = true := truthy_of_candidateText _ _ ht
  have hne : t ≠ "" := by
    intro h
    rw [h] at hp
    have h0 : parseJson "" = (none : Option Json) := rfl
    rw [h0] at hp
    exact Option.noConfusion hp
  have htv : truthy (Json.str t) = true := by simp [truthy, hne]
  have hidx : jsIndex0 (Json.arr l) = some cand := hh
  rw [normalizeE_of_ne_null _ hnn]
  simp only [normalize, hc, hidx, htr, ht, htv, jsToStr, hp, if_true]

/-- C6 (amended): the normalizer never throws for any well-formed JSON
input other than the literal `null` (on `null` the access
`json.candidates` raises a TypeError caught by the handler's generic
catch), and when the text at the candidate path exists, is a non-empty
string, and fails to parse as JSON, it returns
`\x7b candidates: upstreamJson.candidates \x7d` with the original
candidate list, never surfacing the parse failure. -/
theorem c6_theorem :
    (∀ j : Json, j ≠ .null → (normalizeE j).isOk = true) ∧
    (∀ (j cs cand : Json) (t : String),
      candidatesOf j = some cs → jsIndex0 cs = some cand →
      candidateText cand = some (.str t) → t ≠ "" → parseJson t = none →
      normalizeE j = .ok (Json.obj [("candidates", cs)])) := by
  constructor
  · intro j h; rw [normalizeE_of_ne_null j h]; rfl
  · intro j cs cand t hc hi ht hne hp
    have hnn : j ≠ .null := by intro h; rw [h] at hc; simp [candidatesOf, jsProp] at hc
    have htr : truthy cand = true := truthy_of_candidateText _ _ ht
    have htv : truthy (Json.str t) = true := by simp [truthy, hne]
    rw [normalizeE_of_ne_null _ hnn]
    simp only [normalize, hc, hi, ht, htr, htv, jsToStr, hp, if_true]

/-- C7 (amended): for every upstream JSON value other than `null`, when
the index access `candidates?.[0]` finds no candidate — in particular when
there is no candidates field — or the found candidate lacks a text value
at `content.parts[0].text`, the normalizer returns its input unchanged. -/
theorem c7_theorem (j : Json) (h0 : j ≠ .null)
    (h : (candidatesOf j).bind jsIndex0 = none ∨
         ∃ cand, (candidatesOf j).bind jsIndex0 = some cand ∧ candidateText cand = none) :
    normalizeE j = .ok j := by
  rw [normalizeE_of_ne_null _ h0]
  unfold normalize
  cases hc : candidatesOf j with
  | none => rfl
  | some cs =>
    cases hi : jsIndex0 cs with
    | none => simp only [hi]
    | some cand =>
      have hbind : (candidatesOf j).bind jsIndex0 = some cand := by rw [hc]; simpa using hi
      rcases h with h | ⟨cand2, h2, h3⟩
      · rw [hbind] at h; exact absurd h (by simp)
      · rw [hbind] at h2; injection h2 with he; subst he
        by_cases htr : truthy cand = true
        · simp only [hi, htr, h3, if_true]
        · simp only [hi, htr, if_false, Bool.false_eq_true, ite_false]

theorem c5_witness :
    normalizeE roundTripInput =
      .ok (Json.obj [("recommendations", Json.arr [Json.obj [("name", Json.str "X")]])]) :=
  c5_theorem roundTripInput (mkCandidate "[\x7b\"name\":\"X\"\x7d]")
    (Json.arr [Json.obj [("name", Json.str "X")]])
    [mkCandidate "[\x7b\"name\":\"X\"\x7d]"] "[\x7b\"name\":\"X\"\x7d]" rfl rfl rfl rfl

theorem c6_witness :
    (normalizeE fallbackInput).isOk = true ∧
    normalizeE fallbackInput = .ok (Json.obj [("candidates", Json.arr [mkCandidate "not json"])]) :=
  ⟨c6_theorem.1 fallbackInput (fun h => by simp [fallbackInput] at h),
   c6_theorem.2 fallbackInput (Json.arr [mkCandidate "not json"]) (mkCandidate "not json")
     "not json" rfl rfl rfl (by decide) rfl⟩

theorem c6_counterexample :
    normalizeE Json.null = .error () ∧
    normalizeE emptyTextInput = .ok emptyTextInput ∧
    topKeys emptyTextInput = ["candidates", "extra"] :=
  ⟨rfl, rfl, rfl⟩

theorem c7_counterexample :
    candidatesOf nonArrayCandidatesInput = some (Json.obj [("0", mkCandidate "1")]) ∧
    normalizeE nonArrayCandidatesInput = .ok (Json.obj [("recommendations", Json.num 1)]) ∧
    topKeys (Json.obj [("recommendations", Json.num 1)]) ≠ topKeys nonArrayCandidatesInput :=
  ⟨rfl, rfl, by decide⟩

theorem c7_witness :
    normalizeE (Json.obj [("foo", Json.str "bar")]) = .ok (Json.obj [("foo", Json.str "bar")]) :=
  c7_theorem _ (fun h => by simp at h) (Or.inl rfl)

/-- C8: a non-POST request to the serverless proxy endpoint is answered
405 with `Allow: POST`, no upstream call is made, and the rate-limiter
state is untouched. -/
theorem c8_theorem (apiKey : Option String) (req : SReq) (nowMs : Nat) (st : SState)
    (up : UpstreamResult) (h : req.method ≠ "POST") :
    slessHandler apiKey req nowMs st up = ⟨405, some "POST", .text "Method Not Allowed", st, false⟩ := by
  unfold slessHandler
  rw [if_pos h]

theorem c8_witness :
    slessHandler none ⟨"GET", none, none⟩ 0 [] .netFail =
      ⟨405, some "POST", .text "Method Not Allowed", [], false⟩ :=
  c8_theorem none ⟨"GET", none, none⟩ 0 [] .netFail (by decide)

/-- C10: with `GEMINI_API_KEY` unset and demo mode off, the Express route
answers the configuration-error 500 before `getClientIp`/`checkRateLimit`
run, leaving every rate-limit counter untouched; the serverless handler
keeps the same ordering, answering 403 before its limiter. -/
theorem c10_theorem :
    (∀ (cfg : ECfg) (req : EReq) (nowMs : Nat) (st : Store) (up : UpstreamResult),
      keyPresent cfg.apiKey = false → cfg.demoProxy = false →
      expressHandler cfg req nowMs st up =
        ⟨500, none, .json (Json.obj [("error", Json.str "GEMINI_API_KEY not configured on server")]),
          st, false⟩) ∧
    (∀ (req : SReq) (nowMs : Nat) (st : SState) (up : UpstreamResult),
      req.method = "POST" →
      slessHandler none req nowMs st up =
        ⟨403, none,
          .json (Json.obj [("error",
            Json.str "GEMINI_API_KEY not configured on server. Please set the environment variable.")]),
          st, false⟩) := by
  constructor
  · intro cfg req nowMs st up hk hd
    simp [expressHandler, hk, hd]
  · intro req nowMs st up hm
    simp [slessHandler, hm, keyPresent]

theorem c10_witness :
    expressHandler ⟨none, false, 60, 10000⟩ ⟨some "1.2.3.4", none⟩ 5 memStore0 .netFail =
      ⟨500, none, .json (Json.obj [("error", Json.str "GEMINI_API_KEY not configured on server")]),
        memStore0, false⟩ ∧
    slessHandler none ⟨"POST", some "1.2.3.4", none⟩ 5 [] .netFail =
      ⟨403, none,
        .json (Json.obj [("error",
          Json.str "GEMINI_API_KEY not configured on server. Please set the environment variable.")]),
        [], false⟩ :=
  ⟨c10_theorem.1 _ _ _ _ _ rfl rfl, c10_theorem.2 _ _ _ _ rfl⟩

/-- C3 (code bug): with `MAX_DAILY_REQUESTS = 3`, the 4th same-UTC-date
call is rejected `daily_limit` even across distinct minute windows — but
the in-memory variant never compares its stored `day` with the current
date, so the 5th call, on the next UTC date, is still rejected instead of
seeing a reset counter; the stored entry still carries the old day string.
The Redis variant, whose day key embeds the date, does reset. -/
theorem c3_theorem :
    (runLimit 60 3 "9.9.9.9" [0, 60000, 120000, 180000, 86400000] memStore0).1 =
      [.ok, .ok, .ok, .dailyLimit, .dailyLimit] ∧
    memFind (runLimit 60 3 "9.9.9.9" [0, 60000, 120000, 180000, 86400000] memStore0).2.ipMap
      "9.9.9.9" = some ⟨1440, 1, "1970-01-01", 5⟩ ∧
    utcDateString 86400000 = "1970-01-02" ∧
    (runLimit 60 3 "9.9.9.9" [0, 60000, 120000, 180000, 86400000] redisStore0).1 =
      [.ok, .ok, .ok, .dailyLimit, .ok] := by decide

end AssessProxy

namespace AssessProxy

theorem memFind_memSet_self (ms : MemState) (k : String) (e : MemEntry) :
    memFind (memSet ms k e) k = some e := by
  induction ms with
  | nil => simp [memSet, memFind]
  | cons p rest ih =>
    obtain ⟨k0, e0⟩ := p
    simp only [memSet]
    split
    · simp [memFind, *]
    · simp [memFind, *]

theorem redisFind_redisSet_ne (r : RedisState) (k k2 : RKey) (cell : RCell) (h : k ≠ k2) :
    redisFind (redisSet r k cell) k2 = redisFind r k2 := by
  induction r with
  | nil => simp [redisSet, redisFind, h]
  | cons p rest ih =>
    obtain ⟨k0, c0⟩ := p
    simp only [redisSet]
    split
    · next heq => subst heq; simp [redisFind, h]
    · simp [redisFind, ih]

theorem redisFind_redisIncr_ne (r : RedisState) (k k2 : RKey) (now : Nat) (h : k ≠ k2) :
    redisFind (redisIncr r k now).2 k2 = redisFind r k2 := by
  unfold redisIncr
  simp only
  split <;> exact redisFind_redisSet_ne _ _ _ _ h

theorem redisFind_redisExpire_ne (r : RedisState) (k k2 : RKey) (now secs : Nat) (h : k ≠ k2) :
    redisFind (redisExpire r k now secs) k2 = redisFind r k2 := by
  unfold redisExpire
  split
  · exact redisFind_redisSet_ne _ _ _ _ h
  · rfl

/-- C2 (amended): a `minute_limit`-rejected call still increments the
daily counter in the in-memory variant of `checkRateLimit`, but in the
Redis variant the rejection returns before `redis.incr(dayKey)`, so no
daily counter changes there. -/
theorem c2_theorem :
    (∀ (mm md : Nat) (c : String) (t : Nat) (ms : MemState),
      (checkRateLimit mm md c t ⟨none, ms⟩).1 = .minuteLimit →
      ∃ e : MemEntry,
        memFind (checkRateLimit mm md c t ⟨none, ms⟩).2.ipMap c = some e ∧
        e.dayCount = (match memFind ms c with | some e0 => e0.dayCount | none => 0) + 1) ∧
    (∀ (mm md : Nat) (c : String) (t : Nat) (r : RedisState) (ms : MemState),
      (checkRateLimit mm md c t ⟨some r, ms⟩).1 = .minuteLimit →
      ∃ r2, (checkRateLimit mm md c t ⟨some r, ms⟩).2.redis = some r2 ∧
        ∀ d, redisFind r2 (.dayK c d) = redisFind r (.dayK c d)) := by
  constructor
  · intro mm md c t ms _
    unfold checkRateLimit
    simp only [apply_ite Prod.snd, apply_ite Store.ipMap, ite_self]
    refine ⟨_, memFind_memSet_self _ _ _, ?_⟩
    cases hf : memFind ms c <;>
      simp [hf, apply_ite MemEntry.dayCount, ite_self]
  · intro mm md c t r ms h
    unfold checkRateLimit at h ⊢
    simp only [apply_ite Prod.fst, apply_ite Prod.snd, apply_ite Store.redis] at h ⊢
    by_cases hcond : mm < (redisIncr r (.minuteK c (t / 1000 / 60)) (t / 1000)).1
    · simp only [hcond, if_true, if_pos] at h ⊢
      refine ⟨_, rfl, ?_⟩
      intro d
      have hk : (RKey.minuteK c (t / 1000 / 60)) ≠ (RKey.dayK c d) := by simp
      split
      · rw [redisFind_redisExpire_ne _ _ _ _ _ hk, redisFind_redisIncr_ne _ _ _ _ hk]
      · rw [redisFind_redisIncr_ne _ _ _ _ hk]
    · exfalso
      simp only [hcond, if_false] at h
      split at h <;> split at h <;> simp at h

end AssessProxy

namespace AssessProxy

theorem c2_counterexample :
    (runLimit 1 10 "c" [0, 0] redisStore0).1 = [.ok, .minuteLimit] ∧
    (match (runLimit 1 10 "c" [0, 0] redisStore0).2.redis with
     | some r => redisFind r (.dayK "c" (utcDateString 0))
     | none => none) = some ⟨1, some 86460⟩ ∧
    memFind (runLimit 1 10 "c" [0, 0] memStore0).2.ipMap "c" = some ⟨0, 2, "1970-01-01", 2⟩ := by
  decide

/-- C9 (amended): in the Express variant every Quota Guard rejection is
answered 429 with a JSON body naming the exceeded limit (`minute_limit`
or `daily_limit`); the serverless variant answers its limiter rejections
429 with a generic body that names no limit. -/
theorem c9_theorem :
    (∀ (cfg : ECfg) (req : EReq) (nowMs : Nat) (st : Store) (up : UpstreamResult),
      keyPresent cfg.apiKey = true →
      ∀ (d : Decision) (s2 : Store),
      checkRateLimit cfg.maxPerMin cfg.maxDaily
        (getClientIp req.xForwardedFor req.remoteAddr) nowMs st = (d, s2) →
      d ≠ .ok →
      expressHandler cfg req nowMs st up =
        ⟨429, none,
          .json (Json.obj [("error", Json.str "Rate limit exceeded"),
                           ("reason", Json.str (reasonString d))]), s2, false⟩ ∧
      (reasonString d = "minute_limit" ∨ reasonString d = "daily_limit")) ∧
    (∀ (apiKey : Option String) (req : SReq) (nowMs : Nat) (st : SState) (up : UpstreamResult),
      (slessHandler apiKey req nowMs st up).calledUpstream = false →
      (slessHandler apiKey req nowMs st up).status = 429 →
      (slessHandler apiKey req nowMs st up).body =
        .json (Json.obj [("error", Json.str "Rate limit exceeded. Try again later.")]) ∧
      jsProp (Json.obj [("error", Json.str "Rate limit exceeded. Try again later.")]) "reason" =
        none) := by
  constructor
  · intro cfg req nowMs st up hk d s2 hpair hrej
    unfold expressHandler
    simp only [hk, not_true_eq_false, if_false, hpair]
    cases d with
    | ok => exact absurd rfl hrej
    | minuteLimit => exact ⟨by simp, Or.inl rfl⟩
    | dailyLimit => exact ⟨by simp, Or.inr rfl⟩
  · intro apiKey req nowMs st up hcall hstat
    by_cases h1 : req.method ≠ "POST"
    · simp [slessHandler, h1] at hstat
    · by_cases h2 : keyPresent apiKey = true
      · simp only [slessHandler, h1, if_false, h2, not_true_eq_false] at hcall hstat ⊢
        set e0 : SEntry :=
          (sFind st (getClientIp req.xForwardedFor req.remoteAddr)).getD ⟨0, nowMs⟩ with hE0
        set e1 : SEntry := if 60000 < nowMs - e0.start then (⟨0, nowMs⟩ : SEntry) else e0 with hE1
        by_cases h3 : 60 < e1.count + 1
        · simp only [if_pos h3] at hstat ⊢
          constructor <;> first | rfl | trivial
        · simp only [if_neg h3] at hcall
          simp at hcall
      · simp [slessHandler, h1, h2] at hstat

theorem c2_witness :
    (∃ e : MemEntry,
      memFind (checkRateLimit 1 10 "w" 0
          ⟨none, [("w", ⟨0, 1, "1970-01-01", 1⟩)]⟩).2.ipMap "w" = some e ∧
      e.dayCount = (match memFind [("w", ⟨0, 1, "1970-01-01", 1⟩)] "w" with
                    | some e0 => e0.dayCount | none => 0) + 1) ∧
    (∃ r2, (checkRateLimit 1 10 "w" 0
          ⟨some [(.minuteK "w" 0, ⟨1, some 65⟩)], []⟩).2.redis = some r2 ∧
      ∀ d, redisFind r2 (.dayK "w" d) =
        redisFind [(.minuteK "w" 0, ⟨1, some 65⟩)] (.dayK "w" d)) :=
  ⟨c2_theorem.1 1 10 "w" 0 _ (by decide), c2_theorem.2 1 10 "w" 0 _ _ (by decide)⟩

theorem c9_counterexample :
    (slessHandler (some "k") ⟨"POST", some "7.7.7.7", none⟩ 1000
        [("7.7.7.7", ⟨60, 0⟩)] (.resp true 200 "1")).status = 429 ∧
    (slessHandler (some "k") ⟨"POST", some "7.7.7.7", none⟩ 1000
        [("7.7.7.7", ⟨60, 0⟩)] (.resp true 200 "1")).calledUpstream = false ∧
    (slessHandler (some "k") ⟨"POST", some "7.7.7.7", none⟩ 1000
        [("7.7.7.7", ⟨60, 0⟩)] (.resp true 200 "1")).body =
      .json (Json.obj [("error", Json.str "Rate limit exceeded. Try again later.")]) ∧
    jsProp (Json.obj [("error", Json.str "Rate limit exceeded. Try again later.")]) "reason" =
      none :=
  ⟨rfl, rfl, rfl, rfl⟩

theorem c9_witness :
    (expressHandler ⟨some "k", false, 0, 10⟩ ⟨some "8.8.8.8", none⟩ 0 memStore0 .netFail =
       ⟨429, none,
         .json (Json.obj [("error", Json.str "Rate limit exceeded"),
                          ("reason", Json.str (reasonString .minuteLimit))]),
         ⟨none, [("8.8.8.8", ⟨0, 1, "1970-01-01", 1⟩)]⟩, false⟩ ∧
     (reasonString .minuteLimit = "minute_limit" ∨
      reasonString .minuteLimit = "daily_limit")) ∧
    ((slessHandler (some "k") ⟨"POST", some "6.6.6.6", none⟩ 1000
        [("6.6.6.6", ⟨60, 0⟩)] .netFail).body =
      .json (Json.obj [("error", Json.str "Rate limit exceeded. Try again later.")]) ∧
     jsProp (Json.obj [("error", Json.str "Rate limit exceeded. Try again later.")]) "reason" =
       none) :=
  ⟨c9_theorem.1 ⟨some "k", false, 0, 10⟩ ⟨some "8.8.8.8", none⟩ 0 memStore0 .netFail rfl
     .minuteLimit ⟨none, [("8.8.8.8", ⟨0, 1, "1970-01-01", 1⟩)]⟩ rfl (by decide),
   c9_theorem.2 (some "k") ⟨"POST", some "6.6.6.6", none⟩ 1000 [("6.6.6.6", ⟨60, 0⟩)] .netFail
     rfl rfl⟩

end AssessProxy

namespace AssessProxy

theorem utc_same_minute (t m : Nat) (ht : t / 60000 = m) :
    utcDateString t = utcDateString (60000 * m) := by
  unfold utcDateString
  have hd : t / 86400000 = 60000 * m / 86400000 := by omega
  rw [hd]

theorem redis_step (mm md : Nat) (c : String) (m k : Nat) (r : RedisState) (t : Nat)
    (ms0 : MemState) (ht : t / 60000 = m) (h : RAfter mm c m k r) :
    ∃ r2, checkRateLimit mm md c t ⟨some r, ms0⟩ = (specD mm md (k + 1), ⟨some r2, ms0⟩) ∧
      RAfter mm c m (k + 1) r2 := by
  have hkm : t / 1000 / 60 = m := by omega
  have hutc := utc_same_minute t m ht
  have hnow1 : 60 * m ≤ t / 1000 := by omega
  have hnow2 : t / 1000 < 60 * m + 60 := by omega
  rcases h with ⟨hk0, hr⟩ | ⟨hk1, e1, he1, hsub⟩
  · -- first call: both keys absent
    subst hk0
    subst hr
    unfold checkRateLimit
    simp [redisIncr, redisFind, redisSet, redisExpire, hkm, hutc]
    by_cases hmm0 : mm = 0
    · refine ⟨[(.minuteK c m, ⟨1, some (t / 1000 + 65)⟩)], ?_, ?_⟩
      · simp [hmm0, specD]
      · exact Or.inr ⟨le_refl 1, t / 1000 + 65, by omega, Or.inl ⟨hmm0, rfl⟩⟩
    · refine ⟨[(.minuteK c m, ⟨1, some (t / 1000 + 65)⟩),
               (.dayK c (utcDateString (60000 * m)), ⟨1, some (t / 1000 + 86460)⟩)], ?_, ?_⟩
      · simp only [specD]
        by_cases hmd : md = 0 <;> simp [hmm0, hmd]
      · refine Or.inr ⟨le_refl 1, t / 1000 + 65, by omega,
          Or.inr ⟨by omega, t / 1000 + 86460, by omega, ?_⟩⟩
        have : min 1 mm = 1 := by omega
        rw [this]
  · -- later call of the same minute: the minute key is live with count k
    have hlive1 : ¬(e1 ≤ t / 1000) := by omega
    have hne1 : ¬(k + 1 = 1) := by omega
    rcases hsub with ⟨hmm0, hr⟩ | ⟨hmm1, e2, he2, hr⟩
    · -- maxPerMin = 0: every call is minute-rejected, no day key exists
      subst hmm0
      subst hr
      unfold checkRateLimit
      simp [redisIncr, redisFind, redisSet, redisExpire, hkm, hutc, hlive1, hne1]
      refine ⟨[(.minuteK c m, ⟨k + 1, some e1⟩)], ?_, ?_⟩
      · simp [specD]
      · exact Or.inr ⟨by omega, e1, he1, Or.inl ⟨rfl, rfl⟩⟩
    · -- maxPerMin ≥ 1: minute key and day key both present
      have hlive2 : ¬(e2 ≤ t / 1000) := by omega
      have hd1 : ¬(min k mm + 1 = 1) := by omega
      subst hr
      unfold checkRateLimit
      simp [redisIncr, redisFind, redisSet, redisExpire, hkm, hutc, hlive1, hlive2, hne1, hd1]
      by_cases hm : mm ≤ k
      · refine ⟨[(.minuteK c m, ⟨k + 1, some e1⟩),
                 (.dayK c (utcDateString (60000 * m)), ⟨min k mm, some e2⟩)], ?_, ?_⟩
        · have hlt : mm < k + 1 := by omega
          simp [hlt, specD]
        · refine Or.inr ⟨by omega, e1, he1, Or.inr ⟨hmm1, e2, he2, ?_⟩⟩
          have : min (k + 1) mm = min k mm := by omega
          rw [this]
      · have hmink : min k mm = k := by omega
        refine ⟨[(.minuteK c m, ⟨k + 1, some e1⟩),
                 (.dayK c (utcDateString (60000 * m)), ⟨k + 1, some e2⟩)], ?_, ?_⟩
        · have hlt : ¬(mm < k + 1) := by omega
          simp only [specD, hlt, if_false, hmink]
          by_cases hmd : md < k + 1 <;> simp [hmd]
        · refine Or.inr ⟨by omega, e1, he1, Or.inr ⟨hmm1, e2, he2, ?_⟩⟩
          have : min (k + 1) mm = k + 1 := by omega
          rw [this]

theorem mem_step (mm md : Nat) (c : String) (m k : Nat) (ms : MemState) (t : Nat)
    (ht : t / 60000 = m) (h : MAfter c m k ms) :
    ∃ ms2, checkRateLimit mm md c t ⟨none, ms⟩ = (specD mm md (k + 1), ⟨none, ms2⟩) ∧
      MAfter c m (k + 1) ms2 := by
  have hutc := utc_same_minute t m ht
  rcases h with ⟨hk0, hms⟩ | ⟨hk1, hms⟩
  · subst hk0
    subst hms
    unfold checkRateLimit
    simp [memFind, memSet, ht, hutc]
    refine ⟨[(c, ⟨m, 1, utcDateString (60000 * m), 1⟩)], ?_, ?_⟩
    · by_cases h1 : mm = 0 <;> by_cases h2 : md = 0 <;> simp [h1, h2, specD]
    · exact Or.inr ⟨le_refl 1, rfl⟩
  · subst hms
    unfold checkRateLimit
    simp [memFind, memSet, ht, hutc]
    refine ⟨[(c, ⟨m, k + 1, utcDateString (60000 * m), k + 1⟩)], ?_, ?_⟩
    · by_cases h1 : mm < k + 1 <;> by_cases h2 : md < k + 1 <;> simp [h1, h2, specD]
    · exact Or.inr ⟨by omega, rfl⟩

theorem runRedis_spec (mm md : Nat) (c : String) (m : Nat) (ts : List Nat)
    (hts : ∀ t ∈ ts, t / 60000 = m) :
    ∀ (k : Nat) (r : RedisState) (ms0 : MemState), RAfter mm c m k r →
    ∃ r2, runLimit mm md c ts ⟨some r, ms0⟩ =
        (specList mm md k ts.length, ⟨some r2, ms0⟩) ∧ RAfter mm c m (k + ts.length) r2 := by
  induction ts with
  | nil => intro k r ms0 h; exact ⟨r, rfl, by simpa using h⟩
  | cons t ts ih =>
    intro k r ms0 h
    obtain ⟨r2, hstep, hinv⟩ := redis_step mm md c m k r t ms0 (hts t (by simp)) h
    obtain ⟨r3, hrun, hinv3⟩ :=
      ih (fun x hx => hts x (by simp [hx])) (k + 1) r2 ms0 hinv
    refine ⟨r3, ?_, ?_⟩
    · simp only [runLimit, hstep, hrun, List.length_cons, specList]
    · have harr : k + (t :: ts).length = k + 1 + ts.length := by simp; omega
      rw [harr]
      exact hinv3

theorem runMem_spec (mm md : Nat) (c : String) (m : Nat) (ts : List Nat)
    (hts : ∀ t ∈ ts, t / 60000 = m) :
    ∀ (k : Nat) (ms : MemState), MAfter c m k ms →
    ∃ ms2, runLimit mm md c ts ⟨none, ms⟩ =
        (specList mm md k ts.length, ⟨none, ms2⟩) ∧ MAfter c m (k + ts.length) ms2 := by
  induction ts with
  | nil => intro k ms h; exact ⟨ms, rfl, by simpa using h⟩
  | cons t ts ih =>
    intro k ms h
    obtain ⟨ms2, hstep, hinv⟩ := mem_step mm md c m k ms t (hts t (by simp)) h
    obtain ⟨ms3, hrun, hinv3⟩ :=
      ih (fun x hx => hts x (by simp [hx])) (k + 1) ms2 hinv
    refine ⟨ms3, ?_, ?_⟩
    · simp only [runLimit, hstep, hrun, List.length_cons, specList]
    · have harr : k + (t :: ts).length = k + 1 + ts.length := by simp; omega
      rw [harr]
      exact hinv3

/-- C1 (amended): started from empty stores, the shared-store and
in-process variants of `checkRateLimit` return identical decision
sequences (including rejection reasons) for every client and every call
sequence confined to a single epoch minute.  (Across minute windows the
variants diverge; see the counterexample.) -/
theorem c1_theorem (mm md : Nat) (c : String) (m : Nat) (ts : List Nat)
    (hts : ∀ t ∈ ts, t / 60000 = m) :
    (runLimit mm md c ts redisStore0).1 = (runLimit mm md c ts memStore0).1 := by
  obtain ⟨r2, hr, _⟩ := runRedis_spec mm md c m ts hts 0 [] [] (Or.inl ⟨rfl, rfl⟩)
  obtain ⟨m2, hm, _⟩ := runMem_spec mm md c m ts hts 0 [] (Or.inl ⟨rfl, rfl⟩)
  unfold redisStore0 memStore0
  rw [hr, hm]

theorem c1_counterexample :
    (runLimit 1 2 "c" [0, 0, 60000] redisStore0).1 = [.ok, .minuteLimit, .ok] ∧
    (runLimit 1 2 "c" [0, 0, 60000] memStore0).1 = [.ok, .minuteLimit, .dailyLimit] := by
  decide

theorem c1_witness :
    (∀ t ∈ [0, 1000, 2000], t / 60000 = 0) ∧
    (runLimit 2 1 "w" [0, 1000, 2000] redisStore0).1 =
      (runLimit 2 1 "w" [0, 1000, 2000] memStore0).1 :=
  ⟨by decide, c1_theorem 2 1 "w" 0 [0, 1000, 2000] (by decide)⟩

theorem runLimit_append (mm md : Nat) (c : String) (ts1 ts2 : List Nat) (s : Store) :
    runLimit mm md c (ts1 ++ ts2) s =
      ((runLimit mm md c ts1 s).1 ++ (runLimit mm md c ts2 (runLimit mm md c ts1 s).2).1,
       (runLimit mm md c ts2 (runLimit mm md c ts1 s).2).2) := by
  induction ts1 generalizing s with
  | nil => simp [runLimit]
  | cons t ts ih => simp [runLimit, ih]

theorem specList_append_last (mm md : Nat) (n : Nat) :
    ∀ k, specList mm md k (n + 1) = specList mm md k n ++ [specD mm md (k + n + 1)] := by
  induction n with
  | zero => intro k; simp [specList]
  | succ n ih =>
    intro k
    rw [specList, ih (k + 1), specList]
    have : k + 1 + n + 1 = k + (n + 1) + 1 := by omega
    rw [this]
    simp

theorem specList_replicate (mm md : Nat) (h2 : mm ≤ md) :
    ∀ n k, k + n ≤ mm → specList mm md k n = List.replicate n .ok := by
  intro n
  induction n with
  | zero => intro k _; rfl
  | succ n ih =>
    intro k h
    rw [specList]
    have hd : specD mm md (k + 1) = .ok := by
      unfold specD
      rw [if_neg (by omega), if_neg (by omega)]
    rw [hd, ih (k + 1) (by omega)]
    rfl

theorem redis_step_next (mm md : Nat) (c : String) (m : Nat) (r : RedisState) (t2 : Nat)
    (ms0 : MemState) (ht : t2 / 60000 = m + 1) (hmm : 1 ≤ mm) (hmd : mm + 2 ≤ md)
    (h : RAfter mm c m (mm + 1) r) :
    ∃ r2, checkRateLimit mm md c t2 ⟨some r, ms0⟩ = (.ok, ⟨some r2, ms0⟩) ∧
      redisFind r2 (.minuteK c (m + 1)) = some ⟨1, some (t2 / 1000 + 65)⟩ := by
  have hkm : t2 / 1000 / 60 = m + 1 := by omega
  rcases h with ⟨h0, _⟩ | ⟨hk1, e1, he1, hsub⟩
  · omega
  rcases hsub with ⟨hmm0, _⟩ | ⟨hmm1, e2, he2, hr⟩
  · omega
  subst hr
  unfold checkRateLimit
  have hnm : ¬(mm < 1) := by omega
  have hnd1 : ¬(md < 1) := by omega
  have hnd : ¬(md < mm + 1) := by omega
  have hne : ¬(mm + 1 = 1) := by omega
  by_cases hdk : utcDateString t2 = utcDateString (60000 * m)
  · have hlive2 : ¬(e2 ≤ t2 / 1000) := by
      have hub : t2 / 1000 < 60 * (m + 1) + 60 := by omega
      omega
    have hmin : min (mm + 1) mm = mm := by omega
    simp [redisIncr, redisFind, redisSet, redisExpire, hkm, hdk, hlive2, hmin, hnm, hnd, hne]
  · have hdk2 : ¬(utcDateString (60000 * m) = utcDateString t2) := fun hx => hdk hx.symm
    simp [redisIncr, redisFind, redisSet, redisExpire, hkm, hdk, hdk2, hnm, hnd1, hne]

theorem mem_step_next (mm md : Nat) (c : String) (m : Nat) (ms : MemState) (t2 : Nat)
    (ht : t2 / 60000 = m + 1) (hmm : 1 ≤ mm) (hmd : mm + 2 ≤ md)
    (h : MAfter c m (mm + 1) ms) :
    checkRateLimit mm md c t2 ⟨none, ms⟩ =
      (.ok, ⟨none, [(c, ⟨m + 1, 1, utcDateString (60000 * m), mm + 2⟩)]⟩) := by
  rcases h with ⟨h0, _⟩ | ⟨_, hms⟩
  · omega
  subst hms
  unfold checkRateLimit
  have hne : ¬(m = m + 1) := by omega
  have h1 : ¬(mm < 1) := by omega
  have h2 : ¬(md < mm + 1 + 1) := by omega
  simp [memFind, memSet, ht, hne, h1, h2]

theorem RAfter_minuteCount (mm : Nat) (c : String) (m k : Nat) (r : RedisState)
    (ms0 : MemState) (h : RAfter mm c m k r) (hk : 1 ≤ k) :
    redisMinuteCount ⟨some r, ms0⟩ c m = k := by
  rcases h with ⟨h0, _⟩ | ⟨_, e1, _, hsub⟩
  · omega
  rcases hsub with ⟨_, hr⟩ | ⟨_, e2, _, hr⟩ <;> subst hr <;>
    simp [redisMinuteCount, redisFind]

theorem MAfter_minuteCount (c : String) (m k : Nat) (ms : MemState)
    (h : MAfter c m k ms) (hk : 1 ≤ k) :
    memMinuteCount ⟨none, ms⟩ c = k := by
  rcases h with ⟨h0, _⟩ | ⟨_, hms⟩
  · omega
  subst hms
  simp [memMinuteCount, memFind]

/-- C4 (amended): for both `checkRateLimit` variants, from empty state:
the Nth same-minute call's post-increment minute counter equals N, calls
beyond the ceiling are rejected `minute_limit`, and the first call of the
next epoch minute is admitted again with a fresh count of 1.  (The
serverless limiter does not satisfy the minute-key formulation; see the
counterexample.) -/
theorem c4_theorem (mm md : Nat) (c : String) (m : Nat) (ts : List Nat) (t2 : Nat)
    (hts : ∀ t ∈ ts, t / 60000 = m) (hlen : ts.length = mm + 1)
    (ht2 : t2 / 60000 = m + 1) (hmm : 1 ≤ mm) (hmd : mm + 2 ≤ md) :
    (∀ N, N ≤ mm + 1 →
      redisMinuteCount (runLimit mm md c (ts.take N) redisStore0).2 c m = N ∧
      memMinuteCount (runLimit mm md c (ts.take N) memStore0).2 c = N) ∧
    (runLimit mm md c ts redisStore0).1 = List.replicate mm .ok ++ [.minuteLimit] ∧
    (runLimit mm md c ts memStore0).1 = List.replicate mm .ok ++ [.minuteLimit] ∧
    (runLimit mm md c (ts ++ [t2]) redisStore0).1 =
      List.replicate mm .ok ++ [.minuteLimit, .ok] ∧
    redisMinuteCount (runLimit mm md c (ts ++ [t2]) redisStore0).2 c (m + 1) = 1 ∧
    (runLimit mm md c (ts ++ [t2]) memStore0).1 =
      List.replicate mm .ok ++ [.minuteLimit, .ok] ∧
    memMinuteCount (runLimit mm md c (ts ++ [t2]) memStore0).2 c = 1 := by
  unfold redisStore0 memStore0
  have hspec : specList mm md 0 (mm + 1) = List.replicate mm .ok ++ [.minuteLimit] := by
    rw [specList_append_last]
    rw [specList_replicate mm md (by omega) mm 0 (by omega)]
    congr 1
    rw [show specD mm md (0 + mm + 1) = .minuteLimit from by
      unfold specD; rw [if_pos (by omega)]]
  obtain ⟨r2, hr, hinvr⟩ := runRedis_spec mm md c m ts hts 0 [] [] (Or.inl ⟨rfl, rfl⟩)
  obtain ⟨m2, hm2, hinvm⟩ := runMem_spec mm md c m ts hts 0 [] (Or.inl ⟨rfl, rfl⟩)
  rw [hlen, Nat.zero_add] at hinvr hinvm
  obtain ⟨r3, hstepr, hfindr⟩ := redis_step_next mm md c m r2 t2 [] ht2 hmm hmd hinvr
  have hstepm := mem_step_next mm md c m m2 t2 ht2 hmm hmd hinvm
  refine ⟨?_, ?_, ?_, ?_, ?_, ?_, ?_⟩
  · intro N hN
    by_cases hN0 : N = 0
    · subst hN0
      simp [runLimit, redisMinuteCount, memMinuteCount, redisFind, memFind]
    · have htk : ∀ t ∈ ts.take N, t / 60000 = m :=
        fun t htm => hts t (List.mem_of_mem_take htm)
      have hlt : (ts.take N).length = N := by
        rw [List.length_take]
        omega
      obtain ⟨rN, hrN, hinvN⟩ := runRedis_spec mm md c m (ts.take N) htk 0 [] []
        (Or.inl ⟨rfl, rfl⟩)
      obtain ⟨mN, hmN, hinvmN⟩ := runMem_spec mm md c m (ts.take N) htk 0 []
        (Or.inl ⟨rfl, rfl⟩)
      rw [hlt, Nat.zero_add] at hinvN hinvmN
      rw [hrN, hmN]
      exact ⟨RAfter_minuteCount mm c m N rN [] hinvN (by omega),
             MAfter_minuteCount c m N mN hinvmN (by omega)⟩
  · rw [hr, hlen, hspec]
  · rw [hm2, hlen, hspec]
  · rw [runLimit_append, hr, hlen, hspec]
    simp [runLimit, hstepr]
  · rw [runLimit_append, hr]
    simp [runLimit, hstepr, redisMinuteCount, hfindr]
  · rw [runLimit_append, hm2, hlen, hspec]
    simp [runLimit, hstepm]
  · rw [runLimit_append, hm2]
    simp [runLimit, hstepm, memMinuteCount, memFind]

theorem c4_counterexample :
    sFind (slessHandler (some "k") ⟨"POST", some "5.5.5.5", none⟩ 70000
        (slessHandler (some "k") ⟨"POST", some "5.5.5.5", none⟩ 30000 []
          (.resp true 200 "1")).state
        (.resp true 200 "1")).state "5.5.5.5" = some ⟨2, 30000⟩ ∧
    30000 / 60000 ≠ 70000 / 60000 := by decide

theorem c4_witness :
    (∀ N, N ≤ 1 + 1 →
      redisMinuteCount (runLimit 1 3 "x" ([0, 1000].take N) redisStore0).2 "x" 0 = N ∧
      memMinuteCount (runLimit 1 3 "x" ([0, 1000].take N) memStore0).2 "x" = N) ∧
    (runLimit 1 3 "x" [0, 1000] redisStore0).1 = List.replicate 1 .ok ++ [.minuteLimit] ∧
    (runLimit 1 3 "x" [0, 1000] memStore0).1 = List.replicate 1 .ok ++ [.minuteLimit] ∧
    (runLimit 1 3 "x" ([0, 1000] ++ [60000]) redisStore0).1 =
      List.replicate 1 .ok ++ [.minuteLimit, .ok] ∧
    redisMinuteCount (runLimit 1 3 "x" ([0, 1000] ++ [60000]) redisStore0).2 "x" (0 + 1) = 1 ∧
    (runLimit 1 3 "x" ([0, 1000] ++ [60000]) memStore0).1 =
      List.replicate 1 .ok ++ [.minuteLimit, .ok] ∧
    memMinuteCount (runLimit 1 3 "x" ([0, 1000] ++ [60000]) memStore0).2 "x" = 1 :=
  c4_theorem 1 3 "x" 0 [0, 1000] 60000 (by decide) rfl (by decide) (by decide) (by decide)

end AssessProxy
